import Mathlib

/-!
Shallow embedding of `src/obspy/mseed/src/obspy-readbuffer.c`.

The file `obspy-readbuffer.c` reads a MiniSEED memory buffer into a
`LinkedIDList` of identifier buckets, each holding a chain of
`ContinuousSegment`s, each holding a linked list of decoded `MSRecord`s.
Records are decoded one by one (by the external libmseed routine
`msr_parse_selection`), routed to an identifier bucket by exact key match,
and either merged into the bucket's open (last) segment or used to open a
new segment; closed segments are materialized by `copySegmentData`.

Modelling conventions:
* machine integers (`hptime_t`, `int64_t`, ...) are `Int`; byte values are
  `Nat`; byte buffers are `List Nat`;
* `double` values (`samprate`) are `ℚ`; the C double arithmetic performed
  by this file (`0.5 * hpdelta`, `HPTMODULUS / samprate` followed by an
  integer cast) is exact in double precision for all magnitudes that occur,
  so it is modelled as exact rational arithmetic truncated toward zero;
* the decode collaborator (libmseed) is external to the repository: decoded
  records arrive as a list of `Option MSRecord` events (`none` = a parse
  failure at some offset, which the C loop skips); fields that libmseed
  derives (`msr_endtime`, the blockette chain, `Blkt1001`) are carried on
  the record, as the spec directs;
* `msr_free` on a record is modelled by a `freed` flag on the record's
  list node; the record's data is retained as ghost state so that
  specifications can still talk about the record that was appended;
* a `memcpy` into a buffer is `writeAt`, which clips out-of-range writes
  (the C original would be undefined behaviour there) and always preserves
  the destination length.
-/

namespace ObspyRB

/-- A byte of an auxiliary (blockette) or sample buffer. -/
abbrev Byte := Nat

/-- One metadata sub-block (blockette) of a record: libmseed `BlktLink`,
restricted to the two fields the C file reads (`blkt_type`, `blktdata`). -/
structure Blkt where
  blkt_type : Int
  blktdata : List Byte
  deriving DecidableEq

/-- A decoded MiniSEED record: libmseed `MSRecord`, restricted to the fields
`readMSEEDBuffer` reads.  `endtime` is the decode-derived end time.
Modelled from the spec: `msr_endtime` and the decode of the wire format are
performed by the external decode collaborator (libmseed, not part of the
repository sources), so the record carries its decode-derived end time and
its `Blkt1001` timing quality as fields. -/
structure MSRecord where
  network : String
  station : String
  location : String
  channel : String
  dataquality : Char
  starttime : Int
  samprate : ℚ
  sampletype : Char
  samplecnt : Int
  datasamples : List Byte
  blkts : List Blkt
  blkt1001_timing_qual : Option Nat
  endtime : Int
  deriving DecidableEq

/-- A node of a segment's `LinkedRecordList`.  `freed` records whether
`msr_free` has been applied to the node's `MSRecord`; the record itself is
kept as ghost data for specification purposes. -/
structure RecNode where
  msr : MSRecord
  freed : Bool
  deriving DecidableEq

/-- `ContinuousSegment` of the C file.  The record list is stored in append
order (head = first appended, last = most recently appended).
`datasamples = none` models a NULL `datasamples` pointer. -/
structure ContinuousSegment where
  starttime : Int
  endtime : Int
  samprate : ℚ
  sampletype : Char
  hpdelta : Int
  samplecnt : Int
  timing_qual : Nat
  calibration_type : Int
  blkt_buffer_len : Nat
  blkt_buffer : List Byte
  datasamples : Option (List Byte)
  records : List RecNode
  deriving DecidableEq

/-- `LinkedIDList` of the C file: one identifier bucket.  The segment chain
is stored most-recently-created first (head = `lastSegment`, the open
segment); the external view reverses it into creation order. -/
structure LinkedIDList where
  network : String
  station : String
  location : String
  channel : String
  dataquality : Char
  segments : List ContinuousSegment
  deriving DecidableEq

/-- `binfield` descriptor of the C file: (blockette type, byte offset into
the blockette payload, byte length). -/
structure binfield where
  blkt_name : Int
  offset : Nat
  size : Nat
  deriving DecidableEq

/-- Configuration flags of `readMSEEDBuffer` that the assembly core reads:
`unpack_data`, `details`, and the `bfield` descriptor array. -/
structure Config where
  unpack : Bool
  details : Bool
  bfield : List binfield
  deriving DecidableEq

/-- The loop state of `readMSEEDBuffer`: the bucket list (stored
most-recently-created first, i.e. head = `idListLast`; the C scan walks
`previous` pointers from `idListLast`), and the function-local variables
`timing_qual`, `calibration_type`, the scratch `blkt_buffer` and
`record_count`, all of which persist across loop iterations. -/
structure RState where
  idListRev : List LinkedIDList
  timing_qual : Nat
  calibration_type : Int
  blkt_buffer : List Byte
  record_count : Nat
  deriving DecidableEq

/-- Truncation of a rational toward zero, as a C cast from `double` to an
integer type does (exact whenever the double arithmetic is exact). -/
def cTrunc (q : ℚ) : Int := q.num.tdiv (q.den : Int)

/-- libmseed `HPTMODULUS`: high-precision time units per second. -/
def HPTMODULUS : ℚ := 1000000

/-- `(hptime_t) (0.5 * hpdelta)` of line 331: the double product is exact
and the cast truncates toward zero. -/
def hptimetolOf (h : Int) : Int := cTrunc ((h : ℚ) / 2)

/-- Lines 420-421: `(hptime_t) ((samprate) ? (HPTMODULUS / samprate) : 0.0)`. -/
def hpdeltaOf (samprate : ℚ) : Int :=
  if samprate ≠ 0 then cTrunc (HPTMODULUS / samprate) else 0

/-- Modelled from the spec: libmseed `ms_samplesize`, the per-sample byte
size of a sample-type tag (ascii, 32-bit integer, float, double). -/
def ms_samplesize (t : Char) : Nat :=
  if t = 'a' then 1 else if t = 'i' then 4 else if t = 'f' then 4
  else if t = 'd' then 8 else 0

/-- Modelled from the spec: libmseed `MS_ISRATETOLERABLE`, the sample-rate
tolerance `|1 - rate_a / rate_b| < 1e-4`. -/
def MS_ISRATETOLERABLE (a b : ℚ) : Bool := |1 - a / b| < 1 / 10000

/-- A `memcpy (buf + off, src, src.length)` into a bounded buffer: writes
are clipped at the end of `buf` (the C original would be undefined
behaviour there), so the destination length is always preserved. -/
def writeAt (buf : List Byte) (off : Nat) (src : List Byte) : List Byte :=
  buf.take off ++ src.take (buf.length - off) ++ buf.drop (off + src.length)

/-- Reading `size` bytes of `data` starting at byte `off`; reads past the
end of `data` (undefined behaviour in the C original) are modelled as 0. -/
def sliceBytes (data : List Byte) (off size : Nat) : List Byte :=
  (data.drop off ++ List.replicate size 0).take size

/-- Lines 341-350: for one blockette, walk the descriptor array with the
running output offset `step`; for each descriptor whose `blkt_name` matches
the blockette's type, copy `size` payload bytes (from payload offset
`offset`) into the scratch buffer at offset `step`; `step` advances by
`size` for every descriptor, matched or not. -/
def blktFields : List binfield → Nat → Blkt → List Byte → List Byte
  | [], _, _, buf => buf
  | f :: fs, step, blkt, buf =>
      blktFields fs (step + f.size) blkt
        (if blkt.blkt_type = f.blkt_name then
          writeAt buf step (sliceBytes blkt.blktdata f.offset f.size)
        else buf)

/-- Lines 355-373: the `switch` updating `calibration_type` from one
blockette type code. -/
def calibStep (c : Int) (t : Int) : Int :=
  if t = 300 then 1 else if t = 310 then 2 else if t = 320 then 3
  else if t = 390 then 4 else if t = 395 then -2 else c

/-- Lines 338-376: walk the record's blockette chain; for each blockette,
first the descriptor copy loop, then the calibration `switch`. -/
def extractPass (bf : List binfield) : List Blkt → List Byte × Int → List Byte × Int
  | [], acc => acc
  | blkt :: rest, (buf, c) =>
      extractPass bf rest (blktFields bf 0 blkt buf, calibStep c blkt.blkt_type)

/-- Line 260-261: `blkt_buffer_len` is the sum of all descriptor sizes. -/
def blkt_buffer_len (bf : List binfield) : Nat := (bf.map (fun f => f.size)).sum

/-- Lines 292-296: exact equality of the five key fields (four `strcmp`s
and the `dataquality` comparison). -/
def keyEq (b : LinkedIDList) (r : MSRecord) : Bool :=
  b.network == r.network && b.station == r.station &&
  b.location == r.location && b.channel == r.channel &&
  b.dataquality == r.dataquality

/-- The 5-tuple key of a bucket. -/
def bucketKey (b : LinkedIDList) : String × String × String × String × Char :=
  (b.network, b.station, b.location, b.channel, b.dataquality)

/-- The 5-tuple key a record asks for. -/
def recordKey (r : MSRecord) : String × String × String × String × Char :=
  (r.network, r.station, r.location, r.channel, r.dataquality)

/-- Lines 290-302: scan the bucket list starting from the most recently
created bucket (`idListLast`, here the list head), following `previous`
pointers, for the first bucket whose five key fields equal the record's. -/
def lookupIdx (r : MSRecord) : List LinkedIDList → Option Nat
  | [] => none
  | b :: bs => if keyEq b r then some 0 else (lookupIdx r bs).map (· + 1)

/-- Lines 306-321: a fresh bucket (`lil_init` plus the `strcpy`s of the
five key fields); it has no segments yet. -/
def mkBucket (r : MSRecord) : LinkedIDList :=
  { network := r.network, station := r.station, location := r.location
    channel := r.channel, dataquality := r.dataquality, segments := [] }

/-- Line 429: `lil_init()` alone, the zero-initialized keyless bucket
returned when no record could be decoded. -/
def lil_init : LinkedIDList :=
  { network := "", station := "", location := "", channel := ""
    dataquality := Char.ofNat 0, segments := [] }

/-- Lines 331-333 and 388: the time-gap conjunct of the merge decision.
`lastgap = starttime - endtime - hpdelta` must satisfy
`lastgap <= hptimetol && lastgap >= nhptimetol` where
`hptimetol = (hptime_t)(0.5 * hpdelta)` and `nhptimetol` is `-hptimetol`
when `hptimetol` is nonzero and `0` otherwise. -/
def timeGapOK (seg : ContinuousSegment) (r : MSRecord) : Bool :=
  let hptimetol := hptimetolOf seg.hpdelta
  let nhptimetol := if hptimetol ≠ 0 then -hptimetol else 0
  let lastgap := r.starttime - seg.endtime - seg.hpdelta
  decide (lastgap ≤ hptimetol) && decide (nhptimetol ≤ lastgap)

/-- Lines 383-391: the full merge condition, evaluated against the open
segment, with `tq`, `ct`, `buf` the current values of the loop variables
`timing_qual`, `calibration_type` and the scratch `blkt_buffer`. -/
def mergeTest (seg : ContinuousSegment) (tq : Nat) (ct : Int)
    (buf : List Byte) (r : MSRecord) : Bool :=
  (seg.sampletype == r.sampletype) &&
  MS_ISRATETOLERABLE seg.samprate r.samprate &&
  timeGapOK seg r &&
  (seg.timing_qual == tq) &&
  (seg.calibration_type == ct) &&
  (seg.blkt_buffer == buf)

/-- Lines 392-394: append the record to the open segment's record list,
add its sample count, and set `endtime` to its decode-derived end time. -/
def mergeInto (seg : ContinuousSegment) (r : MSRecord) : ContinuousSegment :=
  { seg with records := seg.records ++ [{ msr := r, freed := false }]
             samplecnt := seg.samplecnt + r.samplecnt
             endtime := r.endtime }

/-- Lines 401-424: a new segment created from a single record, carrying a
private copy of the scratch buffer and the current `timing_qual` and
`calibration_type`. -/
def newSegment (tq : Nat) (ct : Int) (buf : List Byte) (bl : Nat)
    (r : MSRecord) : ContinuousSegment :=
  { starttime := r.starttime, endtime := r.endtime, samprate := r.samprate
    sampletype := r.sampletype, hpdelta := hpdeltaOf r.samprate
    samplecnt := r.samplecnt, timing_qual := tq, calibration_type := ct
    blkt_buffer_len := bl, blkt_buffer := buf
    datasamples := none, records := [{ msr := r, freed := false }] }

/-- Line 206-207: `record->samplecnt * ms_samplesize (record->sampletype)`,
the byte size of one record's sample data. -/
def nodeSize (node : RecNode) : Nat :=
  (node.msr.samplecnt * (ms_samplesize node.msr.sampletype : Int)).toNat

/-- The `nodeSize` bytes read from a record's sample buffer by the copy. -/
def nodeBytes (node : RecNode) : List Byte :=
  sliceBytes node.msr.datasamples 0 (nodeSize node)

/-- Total byte size of a record list's sample data. -/
def totalSize (l : List RecNode) : Nat := (l.map nodeSize).sum

/-- The in-order concatenation of a record list's sample bytes. -/
def bytesJoin (l : List RecNode) : List Byte := (l.map nodeBytes).flatten

/-- Lines 205-215 of `copySegmentData`: walk the record list; for each
record, copy `nodeSize` bytes of its sample buffer to the running offset
of the destination (when a destination buffer exists; with a NULL
destination the C original only ever reaches this loop with size 0), then
`msr_free` the record. -/
def copyLoop : List RecNode → Option (List Byte) → Nat →
    Option (List Byte) × List RecNode
  | [], dst, _ => (dst, [])
  | node :: rest, dst, off =>
      let dst' := dst.map (fun b => writeAt b off (nodeBytes node))
      let res := copyLoop rest dst' (off + nodeSize node)
      (res.1, { node with freed := true } :: res.2)

/-- Lines 185-217, `copySegmentData`: if `unpack_data`, allocate a fresh
buffer of `samplecnt * ms_samplesize sampletype` bytes via the injected
allocator (modelled from the spec: the allocator returns a buffer of
exactly that many bytes; its contents before the copy are irrelevant and
modelled as zeros), freeing any previous buffer; then run the copy loop
over the record list (which also frees every record). -/
def copySegmentData (seg : ContinuousSegment) (unpack : Bool) : ContinuousSegment :=
  let dst0 : Option (List Byte) :=
    if unpack then
      some (List.replicate ((seg.samplecnt * (ms_samplesize seg.sampletype : Int)).toNat) 0)
    else seg.datasamples
  let res := copyLoop seg.records dst0 0
  { seg with datasamples := res.1, records := res.2 }

/-- Lines 329-334 and 383-425: the segment decision for one record within
its bucket.  `segments` is stored open-segment-first; an empty chain (a
just-created bucket, `segmentCurrent == NULL`) always opens a new segment
(the `copySegmentData` call on line 400 is a no-op on NULL). -/
def segmentStep (unpack : Bool) (tq : Nat) (ct : Int) (buf : List Byte)
    (bl : Nat) (r : MSRecord) (b : LinkedIDList) : LinkedIDList :=
  match b.segments with
  | [] => { b with segments := [newSegment tq ct buf bl r] }
  | seg :: rest =>
      if mergeTest seg tq ct buf r then
        { b with segments := mergeInto seg r :: rest }
      else
        { b with segments :=
            newSegment tq ct buf bl r :: copySegmentData seg unpack :: rest }

/-- Replace the `n`-th element of a list by `f` of it. -/
def modifyNth (f : α → α) : Nat → List α → List α
  | _, [] => []
  | 0, a :: as => f a :: as
  | n + 1, a :: as => a :: modifyNth f n as

/-- Lines 277-425: processing of one successfully decoded record:
increment `record_count`; look the identifier up (creating a bucket if
needed, linked as the new `idListLast`); if `details` or the descriptor
buffer is non-empty, re-extract `calibration_type` (reset to -1 first),
the scratch `blkt_buffer` (not cleared first) and `timing_qual` (0xFF when
no `Blkt1001`); then merge into the open segment or open a new one. -/
def processRecord (cfg : Config) (st : RState) (r : MSRecord) : RState :=
  let bl := blkt_buffer_len cfg.bfield
  let idx_buckets : Nat × List LinkedIDList :=
    match lookupIdx r st.idListRev with
    | some i => (i, st.idListRev)
    | none => (0, mkBucket r :: st.idListRev)
  let doExtract : Bool := cfg.details || decide (1 ≤ bl)
  let buf_ct : List Byte × Int :=
    if doExtract then extractPass cfg.bfield r.blkts (st.blkt_buffer, -1)
    else (st.blkt_buffer, st.calibration_type)
  let tq : Nat :=
    if doExtract then r.blkt1001_timing_qual.getD 0xFF else st.timing_qual
  { idListRev :=
      modifyNth (segmentStep cfg.unpack tq buf_ct.2 buf_ct.1 bl r)
        idx_buckets.1 idx_buckets.2
    timing_qual := tq
    calibration_type := buf_ct.2
    blkt_buffer := buf_ct.1
    record_count := st.record_count + 1 }

/-- Lines 234-263: the initial loop state: no buckets, `timing_qual`
0xFF, `calibration_type` -1, the scratch buffer `calloc`ed (zeroed) to the
sum of the descriptor sizes, no records counted. -/
def initState (bf : List binfield) : RState :=
  { idListRev := [], timing_qual := 0xFF, calibration_type := -1
    blkt_buffer := List.replicate (blkt_buffer_len bf) 0, record_count := 0 }

/-- One iteration of the `while` loop of lines 266-426: a parse failure
(`none`) leaves the state unchanged; a decoded record is processed. -/
def stepEvent (cfg : Config) (st : RState) (ev : Option MSRecord) : RState :=
  match ev with
  | none => st
  | some r => processRecord cfg st r

/-- The whole record loop, over the stream of decode events. -/
def runState (cfg : Config) (events : List (Option MSRecord)) : RState :=
  events.foldl (stepEvent cfg) (initState cfg.bfield)

/-- Lines 432-437: the final flush materializes the still-open (last)
segment of every bucket. -/
def flushBucket (unpack : Bool) (b : LinkedIDList) : LinkedIDList :=
  match b.segments with
  | [] => b
  | seg :: rest => { b with segments := copySegmentData seg unpack :: rest }

/-- Lines 427-440: if no record was decoded, return the single keyless
empty bucket; otherwise flush every bucket's open segment and present
buckets and segments in creation order (the C caller walks the `next`
pointers from `idListHead` / `firstSegment`). -/
def finalize (cfg : Config) (st : RState) : List LinkedIDList :=
  if st.record_count = 0 then [lil_init]
  else
    ((st.idListRev.map (flushBucket cfg.unpack)).map
      (fun b => { b with segments := b.segments.reverse })).reverse

/-- `readMSEEDBuffer`, as a function from the stream of decode events. -/
def readMSEEDBuffer (cfg : Config) (events : List (Option MSRecord)) :
    List LinkedIDList :=
  finalize cfg (runState cfg events)

/-- The successfully decoded records of an event stream. -/
def decoded (events : List (Option MSRecord)) : List MSRecord :=
  events.filterMap id

/-- Sample-count/endtime segment invariant (claim C4): `samplecnt` is the
sum of the constituent records' sample counts and `endtime` is the
decode-derived end time of the most recently appended record. -/
def cntEndOK (s : ContinuousSegment) : Prop :=
  s.samplecnt = (s.records.map (fun n => n.msr.samplecnt)).sum ∧
  s.records.getLast?.map (fun n => n.msr.endtime) = some s.endtime

/-- The sample-count/endtime invariant over a whole loop state. -/
def C4Inv (st : RState) : Prop :=
  ∀ b ∈ st.idListRev, ∀ s ∈ b.segments, cntEndOK s

/-- Adjacent-record continuity (claim C5): the merge predicate holds of
record `y` against the segment's state just before `y` was appended.  All
segment fields the predicate reads except `endtime` are immutable after
segment creation; `endtime` was then the previous record `x`'s
decode-derived end time, and the extractor values `timing_qual`,
`calibration_type` and scratch buffer of that moment are the segment's
stored ones (the predicate itself forced them equal when `y` merged). -/
def adjOK (s : ContinuousSegment) (x y : RecNode) : Prop :=
  mergeTest { s with endtime := x.msr.endtime }
    s.timing_qual s.calibration_type s.blkt_buffer y.msr = true

/-- The continuity-soundness invariant over a whole loop state. -/
def C5Inv (st : RState) : Prop :=
  ∀ b ∈ st.idListRev, ∀ s ∈ b.segments, List.Chain' (adjOK s) s.records

/-- No two buckets share the 5-tuple key (claim C6). -/
def DistinctKeys (l : List LinkedIDList) : Prop :=
  (l.map bucketKey).Nodup

/-- Calibration code of a blockette type, for the types the `switch` of
lines 355-373 recognises. -/
def specCalibCode (t : Int) : Int :=
  if t = 300 then 1 else if t = 310 then 2 else if t = 320 then 3
  else if t = 390 then 4 else -2

/-- The spec's description of the calibration classification (claim C8):
the code of the last-seen blockette among types 300, 310, 320, 390, 395,
or -1 when the record has none of them. -/
def specLastCalib (blkts : List Blkt) : Int :=
  match (blkts.filter
      (fun b => b.blkt_type ∈ ([300, 310, 320, 390, 395] : List Int))).getLast? with
  | none => -1
  | some b => specCalibCode b.blkt_type

/-- Byte offset of descriptor `i`'s slot in the scratch buffer: the sum of
the sizes of the earlier descriptors. -/
def descStart (bf : List binfield) (i : Nat) : Nat := blkt_buffer_len (bf.take i)

/-- The bytes one blockette contributes to descriptor `f`'s slot, if its
type matches. -/
def matchSlice (f : binfield) (blkt : Blkt) : Option (List Byte) :=
  if blkt.blkt_type = f.blkt_name then
    some (sliceBytes blkt.blktdata f.offset f.size)
  else none

/-- The bytes one record leaves in descriptor `f`'s slot (its last
matching blockette wins), if any blockette matches. -/
def recLastSlice (f : binfield) (r : MSRecord) : Option (List Byte) :=
  (r.blkts.filterMap (matchSlice f)).getLast?

/-- The bytes the most recent matching record of a record sequence leaves
in descriptor `f`'s slot, if any record matched. -/
def runLastSlice (f : binfield) (recs : List MSRecord) : Option (List Byte) :=
  (recs.filterMap (recLastSlice f)).getLast?

/-- A record of the out-of-order scenario of claim C7: identifier fields
`nw/stn/loc/ch/dq`, start time `t`, decode-derived end time `t + d`, and
otherwise identical content (rate `q`, no blockettes). -/
def c7rec (nw stn loc ch : String) (dq : Char) (q : ℚ) (ty : Char)
    (cnt : Int) (ds : List Byte) (t d : Int) : MSRecord :=
  { network := nw, station := stn, location := loc, channel := ch
    dataquality := dq, starttime := t, samprate := q, sampletype := ty
    samplecnt := cnt, datasamples := ds, blkts := []
    blkt1001_timing_qual := none, endtime := t + d }

/-- A concrete example record (ascii samples, 1 byte per sample). -/
def exRec : MSRecord :=
  { network := "XX", station := "STA", location := "00", channel := "BHZ"
    dataquality := 'D', starttime := 0, samprate := 1, sampletype := 'a'
    samplecnt := 2, datasamples := [1, 2], blkts := []
    blkt1001_timing_qual := none, endtime := 1000000 }

/-- A concrete open segment holding the single (live) record `exRec`. -/
def exSeg : ContinuousSegment :=
  { starttime := 0, endtime := 1000000, samprate := 1, sampletype := 'a'
    hpdelta := 1000000, samplecnt := 2, timing_qual := 0xFF
    calibration_type := -1, blkt_buffer_len := 0, blkt_buffer := []
    datasamples := none, records := [{ msr := exRec, freed := false }] }

/-- The spec's materialization example: a merged segment of three records
with sample counts 5, 3 and 2 (ascii samples, 1 byte per sample). -/
def exSeg532 : ContinuousSegment :=
  { starttime := 0, endtime := 10000000, samprate := 1, sampletype := 'a'
    hpdelta := 1000000, samplecnt := 10, timing_qual := 0xFF
    calibration_type := -1, blkt_buffer_len := 0, blkt_buffer := []
    datasamples := none
    records :=
      [{ msr := { exRec with samplecnt := 5, datasamples := [1, 2, 3, 4, 5] }
         freed := false },
       { msr := { exRec with samplecnt := 3, datasamples := [6, 7, 8] }
         freed := false },
       { msr := { exRec with samplecnt := 2, datasamples := [9, 10] }
         freed := false }] }

/-! ### Byte-buffer lemmas -/

theorem writeAt_length (buf src : List Byte) (off : Nat) :
    (writeAt buf off src).length = buf.length := by
  simp only [writeAt, List.length_append, List.length_take, List.length_drop]
  omega

theorem writeAt_getElem? (buf src : List Byte) (off n : Nat) :
    (writeAt buf off src)[n]? =
      if off ≤ n ∧ n < off + src.length ∧ n < buf.length then src[n - off]?
      else buf[n]? := by
  rcases Nat.lt_or_ge n buf.length with hn | hn
  · by_cases h1 : n < off
    · rw [if_neg (by omega)]
      simp only [writeAt]
      rw [List.getElem?_append_left
          (by simp only [List.length_append, List.length_take]; omega),
        List.getElem?_append_left (by simp only [List.length_take]; omega),
        List.getElem?_take, if_pos h1]
    · have hA : (buf.take off).length = off := by
        simp only [List.length_take]; omega
      by_cases h2 : n < off + src.length
      · rw [if_pos ⟨by omega, h2, hn⟩]
        simp only [writeAt]
        rw [List.getElem?_append_left
            (by simp only [List.length_append, List.length_take]; omega),
          List.getElem?_append_right (by rw [hA]; omega), hA,
          List.getElem?_take, if_pos (by omega)]
      · rw [if_neg (by omega)]
        simp only [writeAt]
        rw [List.getElem?_append_right
            (by simp only [List.length_append, List.length_take]; omega),
          List.getElem?_drop]
        rw [List.length_append, List.length_take, List.length_take]
        congr 1
        omega
  · rw [if_neg (by omega), List.getElem?_eq_none (l := buf) (by omega),
      List.getElem?_eq_none (by rw [writeAt_length]; omega)]

theorem writeAt_nil (buf : List Byte) (off : Nat) : writeAt buf off [] = buf := by
  simp [writeAt]

theorem writeAt_full (buf src : List Byte) (h : src.length = buf.length) :
    writeAt buf 0 src = src := by
  simp [writeAt, h]

theorem take_drop_congr (x y : List Byte) (a b s : Nat)
    (h : ∀ k, k < s → x[a + k]? = y[b + k]?) :
    (x.drop a).take s = (y.drop b).take s := by
  apply List.ext_getElem?
  intro n
  simp only [List.getElem?_take, List.getElem?_drop]
  split
  · exact h n (by assumption)
  · rfl

theorem writeAt_region_before (buf src : List Byte) (off a s : Nat)
    (h : a + s ≤ off) :
    ((writeAt buf off src).drop a).take s = (buf.drop a).take s := by
  apply take_drop_congr
  intro k hk
  rw [writeAt_getElem?, if_neg (by omega)]

theorem writeAt_region_after (buf src : List Byte) (off a s : Nat)
    (h : off + src.length ≤ a) :
    ((writeAt buf off src).drop a).take s = (buf.drop a).take s := by
  apply take_drop_congr
  intro k hk
  rw [writeAt_getElem?, if_neg (by omega)]

theorem writeAt_region_read (buf src : List Byte) (off : Nat)
    (h : off + src.length ≤ buf.length) :
    ((writeAt buf off src).drop off).take src.length = src := by
  apply List.ext_getElem?
  intro n
  simp only [List.getElem?_take, List.getElem?_drop]
  split
  · rw [writeAt_getElem?, if_pos (by omega)]
    congr 1
    omega
  · rw [List.getElem?_eq_none (l := src) (by omega)]

theorem writeAt_region_read_len (buf src : List Byte) (off s : Nat)
    (hs : src.length = s) (h : off + s ≤ buf.length) :
    ((writeAt buf off src).drop off).take s = src := by
  subst hs
  exact writeAt_region_read _ _ _ h

theorem writeAt_writeAt_adjacent (buf a b : List Byte) (off : Nat) :
    writeAt (writeAt buf off a) (off + a.length) b = writeAt buf off (a ++ b) := by
  apply List.ext_getElem?
  intro n
  rw [writeAt_getElem?, writeAt_getElem?, writeAt_getElem?, writeAt_length,
    List.length_append]
  rcases Nat.lt_or_ge n (off + a.length) with h1 | h1
  · rw [if_neg (by omega)]
    rcases Nat.decLt n buf.length with hb | hb
    · rw [if_neg (by omega), if_neg (by omega)]
    · by_cases h2 : off ≤ n
      · rw [if_pos (by omega), if_pos (by omega), List.getElem?_append,
          if_pos (by omega)]
      · rw [if_neg (by omega), if_neg (by omega)]
  · by_cases h2 : n < off + a.length + b.length ∧ n < buf.length
    · rw [if_pos (by omega), if_pos (by omega), List.getElem?_append,
        if_neg (by omega)]
      congr 1
      omega
    · rw [if_neg (by omega), if_neg (by omega), if_neg (by omega)]

/-! ### sliceBytes lemmas -/

theorem sliceBytes_length (data : List Byte) (off size : Nat) :
    (sliceBytes data off size).length = size := by
  simp only [sliceBytes, List.length_take, List.length_append,
    List.length_drop, List.length_replicate]
  omega

theorem sliceBytes_self (data : List Byte) (size : Nat)
    (h : data.length = size) : sliceBytes data 0 size = data := by
  simp only [sliceBytes, List.drop_zero, ← h, List.take_left]

/-! ### copySegmentData lemmas -/

theorem copyLoop_snd (l : List RecNode) (dst : Option (List Byte)) (off : Nat) :
    (copyLoop l dst off).2 = l.map (fun n => { n with freed := true }) := by
  induction l generalizing dst off with
  | nil => rfl
  | cons node rest ih => simp [copyLoop, ih]

theorem copyLoop_fst_none (l : List RecNode) (off : Nat) :
    (copyLoop l none off).1 = none := by
  induction l generalizing off with
  | nil => rfl
  | cons node rest ih => simp [copyLoop, ih]

theorem bytesJoin_length (l : List RecNode) :
    (bytesJoin l).length = totalSize l := by
  simp only [bytesJoin, totalSize, List.length_flatten, List.map_map]
  congr 1
  apply List.map_congr_left
  intro n _
  exact sliceBytes_length _ _ _

theorem copyLoop_fst_some (l : List RecNode) (buf : List Byte) (off : Nat)
    (h : off + totalSize l ≤ buf.length) :
    (copyLoop l (some buf) off).1 = some (writeAt buf off (bytesJoin l)) := by
  induction l generalizing buf off with
  | nil => simp [copyLoop, bytesJoin, writeAt_nil]
  | cons node rest ih =>
      have hts : totalSize (node :: rest) = nodeSize node + totalSize rest := by
        simp [totalSize]
      simp only [copyLoop]
      rw [show Option.map (fun b => writeAt b off (nodeBytes node)) (some buf) =
          some (writeAt buf off (nodeBytes node)) from rfl]
      rw [ih (writeAt buf off (nodeBytes node)) (off + nodeSize node)
          (by rw [writeAt_length]; omega)]
      have hlen : (nodeBytes node).length = nodeSize node :=
        sliceBytes_length _ _ _
      rw [← hlen, writeAt_writeAt_adjacent]
      simp [bytesJoin]

theorem copySegmentData_records (seg : ContinuousSegment) (unpack : Bool) :
    (copySegmentData seg unpack).records =
      seg.records.map (fun n => { n with freed := true }) := by
  simp only [copySegmentData]
  exact copyLoop_snd _ _ _

/-- Claim C2, counterexample: with `want_samples` false, materializing a
segment holding one live record is not a no-op — the record is freed
(`msr_free` runs unconditionally in the copy loop of lines 205-215). -/
theorem c2_counterexample :
    (copySegmentData exSeg false).records.map (fun n => n.freed) = [true] ∧
    exSeg.records.map (fun n => n.freed) = [false] ∧
    (copySegmentData exSeg false).records ≠ exSeg.records := by
  refine ⟨by decide, by decide, by decide⟩

/-- Claim C2 (amended): with `want_samples` false, materializing a
not-yet-materialized segment allocates nothing and leaves every segment
field unchanged except the record list, whose records are all freed
(`msr_free` is applied to every constituent record even when no samples
are wanted). -/
theorem c2_materialize_no_unpack (seg : ContinuousSegment)
    (h : seg.datasamples = none) :
    copySegmentData seg false =
      { seg with records := seg.records.map (fun n => { n with freed := true }) } := by
  simp only [copySegmentData, Bool.false_eq_true, if_false, h]
  rw [copyLoop_snd, copyLoop_fst_none, ← h]

/-- Witness for `c2_materialize_no_unpack` at the concrete segment `exSeg`. -/
theorem c2_materialize_no_unpack_witness :
    copySegmentData exSeg false =
      { exSeg with records := exSeg.records.map (fun n => { n with freed := true }) } :=
  c2_materialize_no_unpack exSeg rfl

/-- Claim C3: with `want_samples` true, the materialized sample buffer is
the in-order concatenation of the constituent records' sample bytes, and
every record is freed right after its bytes are copied.  Hypotheses: each
record's sample buffer holds exactly `samplecnt * ms_samplesize sampletype`
bytes (the decode collaborator's contract), and the allocation size derived
from the segment's totals equals the sum of the records' byte sizes. -/
theorem c3_materialize_concat (seg : ContinuousSegment)
    (hnode : ∀ n ∈ seg.records, n.msr.datasamples.length = nodeSize n)
    (htot : (seg.samplecnt * (ms_samplesize seg.sampletype : Int)).toNat =
      totalSize seg.records) :
    (copySegmentData seg true).datasamples =
      some ((seg.records.map (fun n => n.msr.datasamples)).flatten) ∧
    (copySegmentData seg true).records =
      seg.records.map (fun n => { n with freed := true }) := by
  have hbj : bytesJoin seg.records =
      (seg.records.map (fun n => n.msr.datasamples)).flatten := by
    unfold bytesJoin
    congr 1
    apply List.map_congr_left
    intro n hn
    exact sliceBytes_self _ _ (hnode n hn)
  refine ⟨?_, copySegmentData_records seg true⟩
  simp only [copySegmentData, if_true]
  rw [copyLoop_fst_some _ _ _ (by rw [List.length_replicate, htot]; omega)]
  rw [writeAt_full _ _ (by rw [bytesJoin_length, List.length_replicate, htot]),
    hbj]

/-- Witness for `c3_materialize_concat`: the spec's `[5,3,2]` example; the
final buffer is byte-for-byte the three records' bytes in order. -/
theorem c3_materialize_concat_witness :
    (copySegmentData exSeg532 true).datasamples =
      some [1, 2, 3, 4, 5, 6, 7, 8, 9, 10] ∧
    (copySegmentData exSeg532 true).records.map (fun n => n.freed) =
      [true, true, true] := by
  have h := c3_materialize_concat exSeg532 (by decide) (by decide)
  exact ⟨h.1.trans (by decide), by rw [h.2]; decide⟩

/-! ### Time-gap tolerance (claim C1) -/

theorem cTrunc_nonneg_eq_floor (q : ℚ) (h : 0 ≤ q) : cTrunc q = ⌊q⌋ := by
  rw [Rat.floor_def, cTrunc]
  exact Int.tdiv_eq_ediv (Rat.num_nonneg.mpr h) (Int.ofNat_nonneg q.den)

theorem cTrunc_neg (q : ℚ) : cTrunc (-q) = -cTrunc q := by
  simp [cTrunc, Rat.num_neg_eq_neg_num, Rat.den_neg_eq_den, Int.neg_tdiv]

theorem cTrunc_half (h : Int) : cTrunc ((h : ℚ) / 2) = h.tdiv 2 := by
  rcases le_or_lt 0 h with hp | hn
  · rw [cTrunc_nonneg_eq_floor _ (div_nonneg (by exact_mod_cast hp) (by norm_num)),
      show ((2 : ℚ)) = ((2 : ℕ) : ℚ) by norm_num,
      Rat.floor_intCast_div_natCast]
    exact (Int.tdiv_eq_ediv hp (by norm_num)).symm
  · have hr : ((h : ℚ) / 2) = -((((-h) : Int) : ℚ) / 2) := by push_cast; ring
    have hh : h = -(-h) := by omega
    rw [hr, cTrunc_neg,
      cTrunc_nonneg_eq_floor _
        (div_nonneg (by exact_mod_cast (by omega : (0:Int) ≤ -h)) (by norm_num)),
      show ((2 : ℚ)) = ((2 : ℕ) : ℚ) by norm_num,
      Rat.floor_intCast_div_natCast,
      ← Int.tdiv_eq_ediv (by omega) (by norm_num), ← Int.neg_tdiv, ← hh]
    norm_num

/-- Claim C1: the time-gap conjunct of the merge decision holds iff
`gap ≤ tol` and `lower ≤ gap`, for `gap = starttime - endtime - hpdelta`,
`tol` the integer truncation of `0.5 * hpdelta` (which equals
`hpdelta.tdiv 2`) and `lower = 0` when `tol = 0`, else `-tol`; in
particular with `hpdelta = 0` the test accepts exactly `gap = 0`. -/
theorem c1_time_gap_conjunct (seg : ContinuousSegment) (r : MSRecord) :
    (timeGapOK seg r = true ↔
      (r.starttime - seg.endtime - seg.hpdelta ≤ hptimetolOf seg.hpdelta ∧
        (if hptimetolOf seg.hpdelta = 0 then 0 else -hptimetolOf seg.hpdelta) ≤
          r.starttime - seg.endtime - seg.hpdelta)) ∧
    hptimetolOf seg.hpdelta = seg.hpdelta.tdiv 2 ∧
    (seg.hpdelta = 0 →
      (timeGapOK seg r = true ↔ r.starttime - seg.endtime - seg.hpdelta = 0)) := by
  have htd : hptimetolOf seg.hpdelta = seg.hpdelta.tdiv 2 := by
    rw [hptimetolOf]; exact cTrunc_half _
  refine ⟨?_, htd, ?_⟩
  · simp only [timeGapOK, Bool.and_eq_true, decide_eq_true_eq]
    by_cases h : hptimetolOf seg.hpdelta = 0 <;> simp [h]
  · intro h0
    have ht : hptimetolOf seg.hpdelta = 0 := by
      rw [htd, h0]; decide
    simp only [timeGapOK, ht, Bool.and_eq_true, decide_eq_true_eq]
    simp only [ne_eq, not_true_eq_false, if_false, h0]
    constructor
    · rintro ⟨h1, h2⟩; omega
    · intro h1; omega

/-- Witness for `c1_time_gap_conjunct`: a contiguous record (gap 0) on a
segment with `hpdelta = 1000000` passes the time-gap test. -/
theorem c1_time_gap_conjunct_witness :
    timeGapOK exSeg { exRec with starttime := 2000000 } = true := by
  have h := c1_time_gap_conjunct exSeg { exRec with starttime := 2000000 }
  apply h.1.mpr
  rw [h.2.1]
  decide

/-! ### Degenerate zero-record run (claim C9) -/

theorem foldl_all_none (cfg : Config) (st : RState)
    (es : List (Option MSRecord)) (h : ∀ ev ∈ es, ev = none) :
    es.foldl (stepEvent cfg) st = st := by
  induction es generalizing st with
  | nil => rfl
  | cons e es ih =>
      have he : e = none := h e (List.mem_cons_self e es)
      rw [List.foldl_cons, he]
      exact ih st (fun ev hev => h ev (List.mem_cons_of_mem _ hev))

/-- Claim C9: when no record is successfully decoded (any stream of parse
failures, including the empty one), the result is exactly one keyless,
segmentless bucket — not an empty collection. -/
theorem c9_zero_records (cfg : Config) (events : List (Option MSRecord))
    (h : ∀ ev ∈ events, ev = none) :
    readMSEEDBuffer cfg events = [lil_init] := by
  unfold readMSEEDBuffer runState
  rw [foldl_all_none cfg _ events h]
  rfl

/-- Witness for `c9_zero_records`: two parse failures yield the single
empty bucket. -/
theorem c9_zero_records_witness :
    readMSEEDBuffer { unpack := true, details := false, bfield := [] }
      [none, none] = [lil_init] :=
  c9_zero_records _ _ (by decide)

/-! ### Auxiliary extraction (claim C8) -/

theorem extractPass_snd (bf : List binfield) (blkts : List Blkt)
    (buf : List Byte) (c : Int) :
    (extractPass bf blkts (buf, c)).2 =
      blkts.foldl (fun acc blkt => calibStep acc blkt.blkt_type) c := by
  induction blkts generalizing buf c with
  | nil => rfl
  | cons b rest ih => rw [extractPass, List.foldl_cons, ih]

theorem calibStep_mem (c t : Int)
    (h : t ∈ ([300, 310, 320, 390, 395] : List Int)) :
    calibStep c t = specCalibCode t := by
  fin_cases h <;> rfl

theorem calibStep_not_mem (c t : Int)
    (h : t ∉ ([300, 310, 320, 390, 395] : List Int)) :
    calibStep c t = c := by
  simp only [List.mem_cons, List.mem_singleton, not_or] at h
  obtain ⟨h1, h2, h3, h4, h5⟩ := h
  simp [calibStep, h1, h2, h3, h4, h5]

theorem calibFold_eq (blkts : List Blkt) (c : Int) :
    blkts.foldl (fun acc blkt => calibStep acc blkt.blkt_type) c =
      (match (blkts.filter
          (fun b => b.blkt_type ∈ ([300, 310, 320, 390, 395] : List Int))).getLast? with
        | none => c
        | some b => specCalibCode b.blkt_type) := by
  induction blkts generalizing c with
  | nil => rfl
  | cons b rest ih =>
      rw [List.foldl_cons, ih]
      by_cases hb : b.blkt_type ∈ ([300, 310, 320, 390, 395] : List Int)
      · rw [List.filter_cons_of_pos (by simpa using hb)]
        cases hrest : (rest.filter
            (fun x => x.blkt_type ∈ ([300, 310, 320, 390, 395] : List Int))) with
        | nil => simp [calibStep_mem c _ hb]
        | cons x xs =>
            simp only [List.getLast?_cons_cons]
            cases hxl : (x :: xs).getLast? with
            | none => exact absurd (List.getLast?_eq_none_iff.mp hxl) (by simp)
            | some y => rfl
      · rw [List.filter_cons_of_neg (by simpa using hb), calibStep_not_mem c _ hb]

/-- Claim C8: when extraction is performed (`details` set or a non-empty
descriptor buffer), the record's resulting `calibration_type` is the code
of its last blockette among types 300, 310, 320, 390, 395 (mapped to
1, 2, 3, 4, -2), or -1 when it has none, and `timing_qual` is the `Blkt1001`
value when present, else the sentinel 0xFF. -/
theorem c8_extraction (cfg : Config) (st : RState) (r : MSRecord)
    (h : cfg.details = true ∨ 1 ≤ blkt_buffer_len cfg.bfield) :
    (processRecord cfg st r).calibration_type = specLastCalib r.blkts ∧
    (processRecord cfg st r).timing_qual = r.blkt1001_timing_qual.getD 0xFF := by
  have hd : (cfg.details || decide (1 ≤ blkt_buffer_len cfg.bfield)) = true := by
    rcases h with h | h
    · simp [h]
    · simp [h]
  simp only [processRecord, hd, if_true]
  refine ⟨?_, by trivial⟩
  rw [extractPass_snd, calibFold_eq, specLastCalib]

/-- Witness for `c8_extraction`: a record with blockettes 300, 395, 310
classifies as 2 (the last-seen rule) with timing quality 0xFF. -/
theorem c8_extraction_witness :
    (processRecord { unpack := false, details := true, bfield := [] }
        (initState [])
        { exRec with blkts := [⟨300, [1]⟩, ⟨395, []⟩, ⟨310, [7]⟩] }).calibration_type
      = 2 ∧
    (processRecord { unpack := false, details := true, bfield := [] }
        (initState [])
        { exRec with blkts := [⟨300, [1]⟩, ⟨395, []⟩, ⟨310, [7]⟩] }).timing_qual
      = 0xFF := by
  have h := c8_extraction { unpack := false, details := true, bfield := [] }
    (initState [])
    { exRec with blkts := [⟨300, [1]⟩, ⟨395, []⟩, ⟨310, [7]⟩] }
    (Or.inl rfl)
  exact ⟨h.1.trans (by decide), h.2.trans (by decide)⟩

/-! ### Identifier registry (claim C6) -/

theorem lookupIdx_some_iff (r : MSRecord) (l : List LinkedIDList) (i : Nat) :
    lookupIdx r l = some i ↔
      ((∃ b, l[i]? = some b ∧ keyEq b r = true) ∧
        ∀ b ∈ l.take i, keyEq b r = false) := by
  induction l generalizing i with
  | nil => simp [lookupIdx]
  | cons b bs ih =>
      by_cases hb : keyEq b r = true
      · simp only [lookupIdx, hb, if_true]
        cases i with
        | zero => simp [hb]
        | succ j =>
            simp only [List.take_succ_cons, List.mem_cons]
            constructor
            · intro h
              exact absurd h (by simp)
            · rintro ⟨-, hall⟩
              exact absurd (hall b (Or.inl rfl)) (by simp [hb])
      · replace hb : keyEq b r = false := by
          cases h : keyEq b r
          · rfl
          · exact absurd h hb
        simp only [lookupIdx, hb, Bool.false_eq_true, if_false]
        cases hbs : lookupIdx r bs with
        | none =>
            simp only [Option.map_none']
            constructor
            · intro h
              exact absurd h (by simp)
            · cases i with
              | zero =>
                  rintro ⟨⟨x, hx, hkx⟩, -⟩
                  rw [List.getElem?_cons_zero] at hx
                  cases hx
                  rw [hb] at hkx
                  exact absurd hkx (by simp)
              | succ j =>
                  rintro ⟨hex, hall⟩
                  simp only [List.getElem?_cons_succ] at hex
                  have hj := (ih j).mpr ⟨hex, fun x hx => hall x
                    (by simp only [List.take_succ_cons, List.mem_cons]
                        exact Or.inr hx)⟩
                  rw [hbs] at hj
                  exact absurd hj (by simp)
        | some k =>
            simp only [Option.map_some']
            constructor
            · intro h
              have hik : i = k + 1 := (Option.some.inj h).symm
              subst hik
              obtain ⟨hex, hall⟩ := (ih k).mp hbs
              refine ⟨by simpa using hex, ?_⟩
              simp only [List.take_succ_cons, List.mem_cons]
              rintro x (rfl | hx)
              · exact hb
              · exact hall x hx
            · rintro ⟨hex, hall⟩
              cases i with
              | zero =>
                  obtain ⟨x, hx, hkx⟩ := hex
                  rw [List.getElem?_cons_zero] at hx
                  cases hx
                  rw [hb] at hkx
                  exact absurd hkx (by simp)
              | succ j =>
                  simp only [List.getElem?_cons_succ] at hex
                  have hj := (ih j).mpr ⟨hex, fun x hx => hall x
                    (by simp only [List.take_succ_cons, List.mem_cons]
                        exact Or.inr hx)⟩
                  rw [hbs] at hj
                  exact congrArg (fun n => some (n + 1)) (Option.some.inj hj)

theorem lookupIdx_none_iff (r : MSRecord) (l : List LinkedIDList) :
    lookupIdx r l = none ↔ ∀ b ∈ l, keyEq b r = false := by
  induction l with
  | nil => simp [lookupIdx]
  | cons b bs ih =>
      by_cases hb : keyEq b r = true
      · simp [lookupIdx, hb]
      · replace hb : keyEq b r = false := by
          cases h : keyEq b r
          · rfl
          · exact absurd h hb
        simp [lookupIdx, hb, ih]

theorem keyEq_iff_key (b : LinkedIDList) (r : MSRecord) :
    keyEq b r = true ↔ bucketKey b = recordKey r := by
  simp [keyEq, bucketKey, recordKey, Bool.and_eq_true, Prod.ext_iff, and_assoc]

theorem segmentStep_key (u : Bool) (tq : Nat) (ct : Int) (buf : List Byte)
    (bl : Nat) (r : MSRecord) (b : LinkedIDList) :
    bucketKey (segmentStep u tq ct buf bl r b) = bucketKey b := by
  cases hs : b.segments with
  | nil => simp [segmentStep, hs, bucketKey]
  | cons s rest =>
      simp only [segmentStep, hs]
      split <;> simp [bucketKey]

theorem map_modifyNth {α β : Type} (f : α → α) (g : α → β)
    (hf : ∀ a, g (f a) = g a) :
    ∀ (i : Nat) (l : List α), (modifyNth f i l).map g = l.map g := by
  intro i l
  induction l generalizing i with
  | nil => cases i <;> rfl
  | cons a as ih =>
      cases i with
      | zero => simp [modifyNth, hf]
      | succ j => simp [modifyNth, ih j]

theorem processRecord_idList_lookup_some (cfg : Config) (st : RState)
    (r : MSRecord) (i : Nat) (h : lookupIdx r st.idListRev = some i) :
    (processRecord cfg st r).idListRev =
      modifyNth (segmentStep cfg.unpack (processRecord cfg st r).timing_qual
          (processRecord cfg st r).calibration_type
          (processRecord cfg st r).blkt_buffer
          (blkt_buffer_len cfg.bfield) r)
        i st.idListRev := by
  simp only [processRecord, h]

theorem processRecord_idList_lookup_none (cfg : Config) (st : RState)
    (r : MSRecord) (h : lookupIdx r st.idListRev = none) :
    (processRecord cfg st r).idListRev =
      segmentStep cfg.unpack (processRecord cfg st r).timing_qual
          (processRecord cfg st r).calibration_type
          (processRecord cfg st r).blkt_buffer
          (blkt_buffer_len cfg.bfield) r (mkBucket r) :: st.idListRev := by
  simp only [processRecord, h]
  rfl

theorem processRecord_keys (cfg : Config) (st : RState) (r : MSRecord) :
    (processRecord cfg st r).idListRev.map bucketKey =
        st.idListRev.map bucketKey ∨
      (processRecord cfg st r).idListRev.map bucketKey =
        recordKey r :: st.idListRev.map bucketKey := by
  cases h : lookupIdx r st.idListRev with
  | some i =>
      left
      rw [processRecord_idList_lookup_some cfg st r i h,
        map_modifyNth _ _ (fun b => segmentStep_key _ _ _ _ _ _ b)]
  | none =>
      right
      rw [processRecord_idList_lookup_none cfg st r h, List.map_cons,
        segmentStep_key]
      rfl

theorem distinctKeys_preserved (cfg : Config) (st : RState) (r : MSRecord)
    (h : DistinctKeys st.idListRev) :
    DistinctKeys (processRecord cfg st r).idListRev := by
  cases hl : lookupIdx r st.idListRev with
  | some i =>
      unfold DistinctKeys
      rw [processRecord_idList_lookup_some cfg st r i hl,
        map_modifyNth _ _ (fun b => segmentStep_key _ _ _ _ _ _ b)]
      exact h
  | none =>
      unfold DistinctKeys
      rw [processRecord_idList_lookup_none cfg st r hl, List.map_cons,
        segmentStep_key,
        show bucketKey (mkBucket r) = recordKey r from rfl]
      refine List.nodup_cons.mpr ⟨?_, h⟩
      intro hmem
      obtain ⟨b, hb, hkey⟩ := List.mem_map.mp hmem
      have : keyEq b r = true := (keyEq_iff_key b r).mpr hkey
      rw [(lookupIdx_none_iff r st.idListRev).mp hl b hb] at this
      exact absurd this (by simp)

theorem distinctKeys_runState (cfg : Config) (es : List (Option MSRecord)) :
    DistinctKeys (runState cfg es).idListRev := by
  suffices h : ∀ (st : RState), DistinctKeys st.idListRev →
      DistinctKeys (es.foldl (stepEvent cfg) st).idListRev by
    exact h (initState cfg.bfield) (by simp [DistinctKeys, initState])
  induction es with
  | nil => intro st hst; exact hst
  | cons e es ih =>
      intro st hst
      rw [List.foldl_cons]
      apply ih
      cases e with
      | none => exact hst
      | some r => exact distinctKeys_preserved cfg st r hst

/-- Claim C6: identifier lookup scans buckets most-recently-created first
and succeeds exactly on the first bucket (in that scan order) whose five
key fields all equal the record's; key equality is exactly the 5-tuple
equality; when no bucket matches, a fresh bucket carrying the record's key
is prepended to the scan order with the rest of the list untouched; one
record changes the key list not at all or by one new key in front; and
every reachable bucket list has pairwise distinct keys. -/
theorem c6_identifier_registry :
    (∀ (r : MSRecord) (l : List LinkedIDList) (i : Nat),
        lookupIdx r l = some i ↔
          ((∃ b, l[i]? = some b ∧ keyEq b r = true) ∧
            ∀ b ∈ l.take i, keyEq b r = false)) ∧
    (∀ (b : LinkedIDList) (r : MSRecord),
        keyEq b r = true ↔ bucketKey b = recordKey r) ∧
    (∀ (cfg : Config) (st : RState) (r : MSRecord),
        lookupIdx r st.idListRev = none →
          ∃ b, (processRecord cfg st r).idListRev = b :: st.idListRev ∧
            bucketKey b = recordKey r) ∧
    (∀ (cfg : Config) (st : RState) (r : MSRecord),
        (processRecord cfg st r).idListRev.map bucketKey =
            st.idListRev.map bucketKey ∨
          (processRecord cfg st r).idListRev.map bucketKey =
            recordKey r :: st.idListRev.map bucketKey) ∧
    (∀ (cfg : Config) (es : List (Option MSRecord)),
        DistinctKeys (runState cfg es).idListRev) := by
  refine ⟨lookupIdx_some_iff, keyEq_iff_key, ?_, processRecord_keys,
    distinctKeys_runState⟩
  intro cfg st r h
  exact ⟨_, processRecord_idList_lookup_none cfg st r h,
    segmentStep_key _ _ _ _ _ _ _⟩

/-- Witness for `c6_identifier_registry`: the run over one record has
distinct bucket keys, and the lookup in the empty registry fails. -/
theorem c6_identifier_registry_witness :
    DistinctKeys (runState { unpack := true, details := false, bfield := [] }
      [some exRec]).idListRev ∧
    lookupIdx exRec [] = none := by
  refine ⟨c6_identifier_registry.2.2.2.2 _ _, ?_⟩
  have h := (c6_identifier_registry.1 exRec [] 0).mpr
  decide

/-! ### Segment invariants (claims C4 and C5) -/

theorem modifyNth_mem {α : Type} (f : α → α) (i : Nat) (l : List α) (b : α)
    (h : b ∈ modifyNth f i l) : b ∈ l ∨ ∃ a ∈ l, b = f a := by
  induction l generalizing i with
  | nil => cases i <;> simp [modifyNth] at h
  | cons a as ih =>
      cases i with
      | zero =>
          simp only [modifyNth, List.mem_cons] at h
          rcases h with rfl | h
          · exact Or.inr ⟨a, List.mem_cons_self a as, rfl⟩
          · exact Or.inl (List.mem_cons_of_mem _ h)
      | succ j =>
          simp only [modifyNth, List.mem_cons] at h
          rcases h with rfl | h
          · exact Or.inl (List.mem_cons_self _ _)
          · rcases ih j h with h' | ⟨x, hx, rfl⟩
            · exact Or.inl (List.mem_cons_of_mem _ h')
            · exact Or.inr ⟨x, List.mem_cons_of_mem _ hx, rfl⟩

theorem cntEndOK_newSegment (tq : Nat) (ct : Int) (buf : List Byte) (bl : Nat)
    (r : MSRecord) : cntEndOK (newSegment tq ct buf bl r) := by
  constructor
  · simp [newSegment]
  · simp [newSegment]

theorem chain'_newSegment (tq : Nat) (ct : Int) (buf : List Byte) (bl : Nat)
    (r : MSRecord) :
    List.Chain' (adjOK (newSegment tq ct buf bl r))
      (newSegment tq ct buf bl r).records :=
  List.chain'_singleton _

theorem cntEndOK_copySegmentData (s : ContinuousSegment) (u : Bool)
    (h : cntEndOK s) : cntEndOK (copySegmentData s u) := by
  obtain ⟨h1, h2⟩ := h
  constructor
  · rw [show (copySegmentData s u).samplecnt = s.samplecnt from rfl,
      copySegmentData_records, List.map_map]
    exact h1
  · rw [show (copySegmentData s u).endtime = s.endtime from rfl,
      copySegmentData_records, List.getLast?_map, Option.map_map]
    exact h2

theorem chain'_copySegmentData (s : ContinuousSegment) (u : Bool)
    (h : List.Chain' (adjOK s) s.records) :
    List.Chain' (adjOK (copySegmentData s u)) (copySegmentData s u).records := by
  rw [copySegmentData_records, List.chain'_map]
  exact h.imp (fun a b hab => hab)

theorem cntEndOK_mergeInto (s : ContinuousSegment) (r : MSRecord)
    (h : cntEndOK s) : cntEndOK (mergeInto s r) := by
  obtain ⟨h1, h2⟩ := h
  constructor
  · simp [mergeInto, List.sum_append, h1]
  · simp [mergeInto, List.getLast?_concat]

theorem chain'_mergeInto (s : ContinuousSegment) (tq : Nat) (ct : Int)
    (buf : List Byte) (r : MSRecord)
    (h4 : cntEndOK s) (h5 : List.Chain' (adjOK s) s.records)
    (hm : mergeTest s tq ct buf r = true) :
    List.Chain' (adjOK (mergeInto s r)) (mergeInto s r).records := by
  have hrec : (mergeInto s r).records =
      s.records ++ [{ msr := r, freed := false }] := rfl
  rw [hrec, List.chain'_append]
  refine ⟨h5.imp (fun a b hab => hab), List.chain'_singleton _, ?_⟩
  intro x hx y hy
  have hy' : y = { msr := r, freed := false } := by
    simp only [List.head?_cons, Option.mem_def, Option.some.injEq] at hy
    exact hy.symm
  subst hy'
  rw [Option.mem_def] at hx
  have hxe : x.msr.endtime = s.endtime := by
    have h2 := h4.2
    rw [hx] at h2
    simpa using h2
  show adjOK s x _
  unfold adjOK
  rw [hxe]
  simp only [mergeTest, Bool.and_eq_true, beq_iff_eq] at hm ⊢
  obtain ⟨⟨⟨⟨⟨hty, hrate⟩, hgap⟩, htq⟩, hct⟩, hbb⟩ := hm
  exact ⟨⟨⟨⟨⟨hty, hrate⟩, hgap⟩, by trivial⟩, by trivial⟩, by trivial⟩

theorem segmentStep_inv4 (u : Bool) (tq : Nat) (ct : Int) (buf : List Byte)
    (bl : Nat) (r : MSRecord) (b : LinkedIDList)
    (h4 : ∀ s ∈ b.segments, cntEndOK s) :
    ∀ s ∈ (segmentStep u tq ct buf bl r b).segments, cntEndOK s := by
  cases hs : b.segments with
  | nil =>
      simp only [segmentStep, hs]
      intro s hsm
      simp only [List.mem_singleton] at hsm
      subst hsm
      exact cntEndOK_newSegment _ _ _ _ _
  | cons seg rest =>
      have hseg : cntEndOK seg := h4 seg (by rw [hs]; exact List.mem_cons_self _ _)
      have hrest : ∀ s ∈ rest, cntEndOK s := fun s hsm =>
        h4 s (by rw [hs]; exact List.mem_cons_of_mem _ hsm)
      simp only [segmentStep, hs]
      by_cases hm : mergeTest seg tq ct buf r = true
      · rw [if_pos hm]
        intro s hsm
        rcases List.mem_cons.mp hsm with rfl | hsm
        · exact cntEndOK_mergeInto seg r hseg
        · exact hrest s hsm
      · rw [if_neg hm]
        intro s hsm
        rcases List.mem_cons.mp hsm with rfl | hsm
        · exact cntEndOK_newSegment _ _ _ _ _
        · rcases List.mem_cons.mp hsm with rfl | hsm
          · exact cntEndOK_copySegmentData seg u hseg
          · exact hrest s hsm

theorem segmentStep_inv5 (u : Bool) (tq : Nat) (ct : Int) (buf : List Byte)
    (bl : Nat) (r : MSRecord) (b : LinkedIDList)
    (h4 : ∀ s ∈ b.segments, cntEndOK s)
    (h5 : ∀ s ∈ b.segments, List.Chain' (adjOK s) s.records) :
    ∀ s ∈ (segmentStep u tq ct buf bl r b).segments,
      List.Chain' (adjOK s) s.records := by
  cases hs : b.segments with
  | nil =>
      simp only [segmentStep, hs]
      intro s hsm
      simp only [List.mem_singleton] at hsm
      subst hsm
      exact chain'_newSegment _ _ _ _ _
  | cons seg rest =>
      have hseg4 : cntEndOK seg := h4 seg (by rw [hs]; exact List.mem_cons_self _ _)
      have hseg5 : List.Chain' (adjOK seg) seg.records :=
        h5 seg (by rw [hs]; exact List.mem_cons_self _ _)
      have hrest : ∀ s ∈ rest, List.Chain' (adjOK s) s.records := fun s hsm =>
        h5 s (by rw [hs]; exact List.mem_cons_of_mem _ hsm)
      simp only [segmentStep, hs]
      by_cases hm : mergeTest seg tq ct buf r = true
      · rw [if_pos hm]
        intro s hsm
        rcases List.mem_cons.mp hsm with rfl | hsm
        · exact chain'_mergeInto seg tq ct buf r hseg4 hseg5 hm
        · exact hrest s hsm
      · rw [if_neg hm]
        intro s hsm
        rcases List.mem_cons.mp hsm with rfl | hsm
        · exact chain'_newSegment _ _ _ _ _
        · rcases List.mem_cons.mp hsm with rfl | hsm
          · exact chain'_copySegmentData seg u hseg5
          · exact hrest s hsm

theorem inv4_preserved (cfg : Config) (st : RState) (r : MSRecord)
    (h : C4Inv st) : C4Inv (processRecord cfg st r) := by
  intro b' hb'
  cases hl : lookupIdx r st.idListRev with
  | some i =>
      rw [processRecord_idList_lookup_some cfg st r i hl] at hb'
      rcases modifyNth_mem _ _ _ _ hb' with hmem | ⟨a, ha, rfl⟩
      · exact h b' hmem
      · exact segmentStep_inv4 _ _ _ _ _ _ a (h a ha)
  | none =>
      rw [processRecord_idList_lookup_none cfg st r hl] at hb'
      rcases List.mem_cons.mp hb' with rfl | hmem
      · exact segmentStep_inv4 _ _ _ _ _ _ (mkBucket r)
          (fun s hsm => absurd hsm (List.not_mem_nil s))
      · exact h b' hmem

theorem inv5_preserved (cfg : Config) (st : RState) (r : MSRecord)
    (h4 : C4Inv st) (h5 : C5Inv st) : C5Inv (processRecord cfg st r) := by
  intro b' hb'
  cases hl : lookupIdx r st.idListRev with
  | some i =>
      rw [processRecord_idList_lookup_some cfg st r i hl] at hb'
      rcases modifyNth_mem _ _ _ _ hb' with hmem | ⟨a, ha, rfl⟩
      · exact h5 b' hmem
      · exact segmentStep_inv5 _ _ _ _ _ _ a (h4 a ha) (h5 a ha)
  | none =>
      rw [processRecord_idList_lookup_none cfg st r hl] at hb'
      rcases List.mem_cons.mp hb' with rfl | hmem
      · exact segmentStep_inv5 _ _ _ _ _ _ (mkBucket r)
          (fun s hsm => absurd hsm (List.not_mem_nil s))
          (fun s hsm => absurd hsm (List.not_mem_nil s))
      · exact h5 b' hmem

theorem inv45_runState (cfg : Config) (es : List (Option MSRecord)) :
    C4Inv (runState cfg es) ∧ C5Inv (runState cfg es) := by
  suffices h : ∀ (st : RState), C4Inv st → C5Inv st →
      C4Inv (es.foldl (stepEvent cfg) st) ∧
        C5Inv (es.foldl (stepEvent cfg) st) by
    exact h (initState cfg.bfield)
      (fun b hb => absurd hb (List.not_mem_nil b))
      (fun b hb => absurd hb (List.not_mem_nil b))
  induction es with
  | nil => intro st h4 h5; exact ⟨h4, h5⟩
  | cons e es ih =>
      intro st h4 h5
      rw [List.foldl_cons]
      cases e with
      | none => exact ih st h4 h5
      | some r =>
          exact ih _ (inv4_preserved cfg st r h4)
            (inv5_preserved cfg st r h4 h5)

/-- Claim C4: every record-processing step preserves the invariant that
each segment's `endtime` is the decode-derived end time of its most
recently appended record and its `samplecnt` is the sum of its records'
sample counts — covering both the merge branch and segment creation. -/
theorem c4_endtime_samplecnt (cfg : Config) (st : RState) (r : MSRecord)
    (h : C4Inv st) : C4Inv (processRecord cfg st r) :=
  inv4_preserved cfg st r h

/-- Witness for `c4_endtime_samplecnt`: one step from the empty initial
state. -/
theorem c4_endtime_samplecnt_witness :
    C4Inv (processRecord { unpack := true, details := false, bfield := [] }
      (initState []) exRec) :=
  c4_endtime_samplecnt _ _ _ (fun b hb => absurd hb (List.not_mem_nil b))

/-- Claim C5: in every reachable state, every adjacent pair of records
inside one segment satisfies the merge predicate evaluated against the
segment's state as it was just before the second record was appended
(fields other than `endtime` are immutable after creation, `endtime` was
then the first record's decode-derived end time, and the extractor values
of that moment provably equal the segment's stored ones). -/
theorem c5_continuity_soundness (cfg : Config) (es : List (Option MSRecord)) :
    C5Inv (runState cfg es) :=
  (inv45_runState cfg es).2

/-- Witness for `c5_continuity_soundness`: a two-record run. -/
theorem c5_continuity_soundness_witness :
    C5Inv (runState { unpack := true, details := false, bfield := [] }
      [some exRec, some { exRec with starttime := 2000000, endtime := 3000000 }]) :=
  c5_continuity_soundness _ _

/-! ### Scratch-buffer retention (claim C10) -/

theorem blkt_buffer_len_cons (f : binfield) (fs : List binfield) :
    blkt_buffer_len (f :: fs) = f.size + blkt_buffer_len fs := by
  simp [blkt_buffer_len]

theorem descStart_zero (bf : List binfield) : descStart bf 0 = 0 := rfl

theorem descStart_succ_cons (f : binfield) (fs : List binfield) (j : Nat) :
    descStart (f :: fs) (j + 1) = f.size + descStart fs j := by
  simp [descStart, blkt_buffer_len]

theorem descStart_add_size_le (bf : List binfield) (i : Nat)
    (h : i < bf.length) :
    descStart bf i + (bf.get ⟨i, h⟩).size ≤ blkt_buffer_len bf := by
  induction bf generalizing i with
  | nil => exact absurd h (by simp)
  | cons f fs ih =>
      cases i with
      | zero => rw [descStart_zero, blkt_buffer_len_cons]; simp
      | succ j =>
          rw [descStart_succ_cons, blkt_buffer_len_cons]
          have := ih j (by simpa using h)
          simp only [List.get_cons_succ]
          omega

theorem blktFields_length (fs : List binfield) (step : Nat) (blkt : Blkt)
    (buf : List Byte) : (blktFields fs step blkt buf).length = buf.length := by
  induction fs generalizing step buf with
  | nil => rfl
  | cons f fs ih =>
      rw [blktFields, ih]
      by_cases hm : blkt.blkt_type = f.blkt_name
      · rw [if_pos hm, writeAt_length]
      · rw [if_neg hm]

theorem blktFields_region_lo (fs : List binfield) (step : Nat) (blkt : Blkt)
    (buf : List Byte) (a s : Nat) (h : a + s ≤ step) :
    ((blktFields fs step blkt buf).drop a).take s = (buf.drop a).take s := by
  induction fs generalizing step buf with
  | nil => rfl
  | cons f fs ih =>
      rw [blktFields, ih _ _ (by omega)]
      by_cases hm : blkt.blkt_type = f.blkt_name
      · rw [if_pos hm, writeAt_region_before _ _ _ _ _ h]
      · rw [if_neg hm]

theorem blktFields_region (fs : List binfield) (step : Nat) (blkt : Blkt)
    (buf : List Byte) (i : Nat) (h : i < fs.length)
    (hlen : step + blkt_buffer_len fs ≤ buf.length) :
    ((blktFields fs step blkt buf).drop (step + descStart fs i)).take
        (fs.get ⟨i, h⟩).size =
      (matchSlice (fs.get ⟨i, h⟩) blkt).getD
        ((buf.drop (step + descStart fs i)).take (fs.get ⟨i, h⟩).size) := by
  induction fs generalizing step buf i with
  | nil => exact absurd h (by simp)
  | cons f fs ih =>
      rw [blkt_buffer_len_cons] at hlen
      cases i with
      | zero =>
          have hget : (f :: fs).get ⟨0, h⟩ = f := rfl
          rw [hget, descStart_zero, Nat.add_zero, blktFields,
            blktFields_region_lo _ _ _ _ _ _ (by omega)]
          simp only [matchSlice]
          by_cases hm : blkt.blkt_type = f.blkt_name
          · rw [if_pos hm, if_pos hm, Option.getD_some,
              writeAt_region_read_len _ _ _ _ (sliceBytes_length _ _ _)
                (by omega)]
          · rw [if_neg hm, if_neg hm, Option.getD_none]
      | succ j =>
          have hj : j < fs.length := by simpa using h
          have harith : step + descStart (f :: fs) (j + 1) =
              (step + f.size) + descStart fs j := by
            rw [descStart_succ_cons]; omega
          rw [harith, blktFields]
          have hget : (f :: fs).get ⟨j + 1, h⟩ = fs.get ⟨j, hj⟩ := rfl
          rw [hget]
          by_cases hm : blkt.blkt_type = f.blkt_name
          · rw [if_pos hm,
              ih (step + f.size) _ j hj (by rw [writeAt_length]; omega),
              writeAt_region_after _ _ _ _ _
                (by rw [sliceBytes_length]; omega)]
          · rw [if_neg hm, ih (step + f.size) _ j hj (by omega)]

theorem extractPass_fst_length (bf : List binfield) (blkts : List Blkt)
    (buf : List Byte) (c : Int) :
    ((extractPass bf blkts (buf, c)).1).length = buf.length := by
  induction blkts generalizing buf c with
  | nil => rfl
  | cons blkt rest ih => rw [extractPass, ih, blktFields_length]

theorem getLast?_cons_getD {α : Type} (a : α) (l : List α) (x : α) :
    ((a :: l).getLast?).getD x = (l.getLast?).getD a := by
  cases l with
  | nil => rfl
  | cons b bs =>
      rw [List.getLast?_cons_cons]
      cases hz : (b :: bs).getLast? with
      | none => exact absurd (List.getLast?_eq_none_iff.mp hz) (by simp)
      | some z => rfl

theorem extractPass_region (bf : List binfield) (i : Nat)
    (h : i < bf.length) (blkts : List Blkt) (buf : List Byte) (c : Int)
    (hlen : blkt_buffer_len bf ≤ buf.length) :
    (((extractPass bf blkts (buf, c)).1).drop (descStart bf i)).take
        (bf.get ⟨i, h⟩).size =
      ((blkts.filterMap (matchSlice (bf.get ⟨i, h⟩))).getLast?).getD
        ((buf.drop (descStart bf i)).take (bf.get ⟨i, h⟩).size) := by
  induction blkts generalizing buf c with
  | nil => rfl
  | cons blkt rest ih =>
      rw [extractPass,
        ih _ _ (by rw [blktFields_length]; exact hlen)]
      have hbf := blktFields_region bf 0 blkt buf i h (by omega)
      rw [Nat.zero_add] at hbf
      rw [List.filterMap_cons]
      cases hm : matchSlice (bf.get ⟨i, h⟩) blkt with
      | none =>
          rw [hm] at hbf
          rw [hbf]
          rfl
      | some sl =>
          rw [hm] at hbf
          simp only [Option.getD_some] at hbf
          rw [hbf]
          exact (getLast?_cons_getD sl _ _).symm

theorem processRecord_blkt_buffer (cfg : Config) (st : RState) (r : MSRecord) :
    (processRecord cfg st r).blkt_buffer =
      (if (cfg.details || decide (1 ≤ blkt_buffer_len cfg.bfield)) = true
        then extractPass cfg.bfield r.blkts (st.blkt_buffer, -1)
        else (st.blkt_buffer, st.calibration_type)).1 := rfl

theorem region_foldl (cfg : Config) (i : Nat) (h : i < cfg.bfield.length)
    (hde : (cfg.details || decide (1 ≤ blkt_buffer_len cfg.bfield)) = true)
    (es : List (Option MSRecord)) :
    ∀ (st : RState), st.blkt_buffer.length = blkt_buffer_len cfg.bfield →
      (((es.foldl (stepEvent cfg) st).blkt_buffer).drop
          (descStart cfg.bfield i)).take (cfg.bfield.get ⟨i, h⟩).size =
        (((decoded es).filterMap (recLastSlice (cfg.bfield.get ⟨i, h⟩))).getLast?).getD
          ((st.blkt_buffer.drop (descStart cfg.bfield i)).take
            (cfg.bfield.get ⟨i, h⟩).size) := by
  induction es with
  | nil => intro st hlen; rfl
  | cons e es ih =>
      intro st hlen
      rw [List.foldl_cons]
      cases e with
      | none => exact ih st hlen
      | some r =>
          have hbuf : (processRecord cfg st r).blkt_buffer =
              (extractPass cfg.bfield r.blkts (st.blkt_buffer, -1)).1 := by
            rw [processRecord_blkt_buffer, if_pos hde]
          have hlen' : (processRecord cfg st r).blkt_buffer.length =
              blkt_buffer_len cfg.bfield := by
            rw [hbuf, extractPass_fst_length]; exact hlen
          rw [show stepEvent cfg st (some r) = processRecord cfg st r from rfl,
            ih _ hlen', hbuf,
            extractPass_region cfg.bfield i h r.blkts st.blkt_buffer (-1)
              (le_of_eq hlen.symm),
            show decoded (some r :: es) = r :: decoded es from rfl,
            List.filterMap_cons,
            show (r.blkts.filterMap (matchSlice (cfg.bfield.get ⟨i, h⟩))).getLast? =
              recLastSlice (cfg.bfield.get ⟨i, h⟩) r from rfl]
          cases hr : recLastSlice (cfg.bfield.get ⟨i, h⟩) r with
          | none => rw [Option.getD_none]
          | some sl =>
              rw [Option.getD_some]
              exact (getLast?_cons_getD sl _ _).symm

theorem sliceBytes_in_recLastSlice (f : binfield) (r : MSRecord)
    (sl : List Byte) (h : recLastSlice f r = some sl) : sl.length = f.size := by
  have hmem : sl ∈ r.blkts.filterMap (matchSlice f) :=
    List.mem_of_getLast?_eq_some h
  obtain ⟨blkt, -, hm⟩ := List.mem_filterMap.mp hmem
  rw [matchSlice] at hm
  split at hm
  · cases hm
    · exact sliceBytes_length _ _ _
  · cases hm

theorem runLastSlice_length (f : binfield) (recs : List MSRecord)
    (sl : List Byte) (h : runLastSlice f recs = some sl) :
    sl.length = f.size := by
  have hmem : sl ∈ recs.filterMap (recLastSlice f) :=
    List.mem_of_getLast?_eq_some h
  obtain ⟨r, -, hr⟩ := List.mem_filterMap.mp hmem
  exact sliceBytes_in_recLastSlice f r sl hr

/-- Claim C10: the scratch buffer is zeroed once per run and never cleared
between records; after any run, descriptor `i`'s byte slot holds the slice
written by the most recent decoded record with a blockette matching that
descriptor (last matching blockette within the record winning), and is
all-zero exactly when no record of the run ever matched it.  Since the
continuity comparison reads this scratch buffer and a newly opened segment
copies it verbatim, stale bytes of earlier records persist there. -/
theorem c10_scratch_retention (cfg : Config) (es : List (Option MSRecord))
    (i : Nat) (h : i < cfg.bfield.length) :
    (((runState cfg es).blkt_buffer).drop (descStart cfg.bfield i)).take
        (cfg.bfield.get ⟨i, h⟩).size =
      (runLastSlice (cfg.bfield.get ⟨i, h⟩) (decoded es)).getD
        (List.replicate (cfg.bfield.get ⟨i, h⟩).size 0) := by
  have hle := descStart_add_size_le cfg.bfield i h
  by_cases hde : (cfg.details || decide (1 ≤ blkt_buffer_len cfg.bfield)) = true
  · rw [runState,
      region_foldl cfg i h hde es (initState cfg.bfield)
        (by simp [initState])]
    rw [show (initState cfg.bfield).blkt_buffer =
        List.replicate (blkt_buffer_len cfg.bfield) 0 from rfl,
      List.drop_replicate, List.take_replicate, min_eq_left (by omega)]
    rfl
  · have hbl : blkt_buffer_len cfg.bfield = 0 := by
      simp only [Bool.or_eq_true, decide_eq_true_eq, not_or] at hde
      omega
    have hsz : (cfg.bfield.get ⟨i, h⟩).size = 0 := by omega
    rw [hsz]
    simp only [List.take_zero, List.replicate_zero]
    cases hr : runLastSlice (cfg.bfield.get ⟨i, h⟩) (decoded es) with
    | none => rfl
    | some sl =>
        have hl := runLastSlice_length _ _ _ hr
        rw [hsz] at hl
        rw [Option.getD_some, List.length_eq_zero.mp hl]

/-- Witness for `c10_scratch_retention`: one descriptor (type 1000, 2
bytes); a first record writes bytes `[9, 9]`, the second record has no
matching blockette, and the scratch buffer still reads `[9, 9]`. -/
theorem c10_scratch_retention_witness :
    ((runState
          { unpack := false, details := false
            bfield := [{ blkt_name := 1000, offset := 0, size := 2 }] }
          [some { exRec with blkts := [⟨1000, [9, 9]⟩] }, some exRec]).blkt_buffer).take 2
      = [9, 9] := by
  have h := c10_scratch_retention
    { unpack := false, details := false
      bfield := [{ blkt_name := 1000, offset := 0, size := 2 }] }
    [some { exRec with blkts := [⟨1000, [9, 9]⟩] }, some exRec] 0 (by decide)
  rw [show descStart [{ blkt_name := 1000, offset := 0, size := 2 }] 0 = 0
      from rfl, List.drop_zero] at h
  exact h.trans (by decide)

/-! ### Out-of-order arrival (claim C7) -/

theorem copySegmentData_starttime (s : ContinuousSegment) (u : Bool) :
    (copySegmentData s u).starttime = s.starttime := rfl

theorem newSegment_starttime (tq : Nat) (ct : Int) (buf : List Byte)
    (bl : Nat) (r : MSRecord) :
    (newSegment tq ct buf bl r).starttime = r.starttime := rfl

theorem three_records_three_segments (u : Bool) (r1 r2 r3 : MSRecord)
    (hk2 : recordKey r2 = recordKey r1) (hk3 : recordKey r3 = recordKey r1)
    (hm2 : mergeTest (newSegment 0xFF (-1) [] 0 r1) 0xFF (-1) [] r2 = false)
    (hm3 : mergeTest (newSegment 0xFF (-1) [] 0 r2) 0xFF (-1) [] r3 = false) :
    (readMSEEDBuffer { unpack := u, details := false, bfield := [] }
        [some r1, some r2, some r3]).map
        (fun b => b.segments.map (fun s => s.starttime)) =
      [[r1.starttime, r2.starttime, r3.starttime]] := by
  have h1 : processRecord { unpack := u, details := false, bfield := [] }
      (initState []) r1 =
      { idListRev := [{ mkBucket r1 with
          segments := [newSegment 0xFF (-1) [] 0 r1] }]
        timing_qual := 0xFF, calibration_type := -1
        blkt_buffer := [], record_count := 1 } := rfl
  have hde : (false || decide (1 ≤ blkt_buffer_len ([] : List binfield))) =
      false := rfl
  have hbl : blkt_buffer_len ([] : List binfield) = 0 := rfl
  have hkb2 : keyEq { mkBucket r1 with
      segments := [newSegment 0xFF (-1) [] 0 r1] } r2 = true := by
    apply (keyEq_iff_key _ _).mpr
    rw [hk2]
    rfl
  have hlk2 : lookupIdx r2 [{ mkBucket r1 with
      segments := [newSegment 0xFF (-1) [] 0 r1] }] = some 0 := by
    simp [lookupIdx, hkb2]
  have h2 : processRecord { unpack := u, details := false, bfield := [] }
      { idListRev := [{ mkBucket r1 with
          segments := [newSegment 0xFF (-1) [] 0 r1] }]
        timing_qual := 0xFF, calibration_type := -1
        blkt_buffer := [], record_count := 1 } r2 =
      { idListRev := [{ mkBucket r1 with
          segments := [newSegment 0xFF (-1) [] 0 r2,
            copySegmentData (newSegment 0xFF (-1) [] 0 r1) u] }]
        timing_qual := 0xFF, calibration_type := -1
        blkt_buffer := [], record_count := 2 } := by
    simp only [processRecord, hlk2, modifyNth, segmentStep, hde, hm2,
      Bool.false_eq_true, if_false]
    rfl
  have hkb3 : keyEq { mkBucket r1 with
      segments := [newSegment 0xFF (-1) [] 0 r2,
        copySegmentData (newSegment 0xFF (-1) [] 0 r1) u] } r3 = true := by
    apply (keyEq_iff_key _ _).mpr
    rw [hk3]
    rfl
  have hlk3 : lookupIdx r3 [{ mkBucket r1 with
      segments := [newSegment 0xFF (-1) [] 0 r2,
        copySegmentData (newSegment 0xFF (-1) [] 0 r1) u] }] = some 0 := by
    simp [lookupIdx, hkb3]
  have h3 : processRecord { unpack := u, details := false, bfield := [] }
      { idListRev := [{ mkBucket r1 with
          segments := [newSegment 0xFF (-1) [] 0 r2,
            copySegmentData (newSegment 0xFF (-1) [] 0 r1) u] }]
        timing_qual := 0xFF, calibration_type := -1
        blkt_buffer := [], record_count := 2 } r3 =
      { idListRev := [{ mkBucket r1 with
          segments := [newSegment 0xFF (-1) [] 0 r3,
            copySegmentData (newSegment 0xFF (-1) [] 0 r2) u,
            copySegmentData (newSegment 0xFF (-1) [] 0 r1) u] }]
        timing_qual := 0xFF, calibration_type := -1
        blkt_buffer := [], record_count := 3 } := by
    simp only [processRecord, hlk3, modifyNth, segmentStep, hde, hm3,
      Bool.false_eq_true, if_false]
    rfl
  rw [readMSEEDBuffer, runState]
  simp only [List.foldl_cons, List.foldl_nil, stepEvent]
  rw [h1, h2, h3]
  simp only [finalize]
  rw [if_neg (by omega)]
  simp only [flushBucket, List.map_cons, List.map_nil, List.reverse_cons,
    List.reverse_nil, List.nil_append, List.cons_append,
    copySegmentData_starttime, newSegment_starttime]

/-- Claim C7: three same-identifier records with start times `t`,
`t + del`, `t - del` (in that arrival order), identical in rate, type and
duration, with `del` exceeding the contiguous step `d + hpdelta` by more
than the tolerance, produce three segments in one bucket — the third
record is only compared to the open (second) segment, so the out-of-order
arrival splits even though it might be contiguous with the first
segment. -/
theorem c7_out_of_order (u : Bool) (nw stn loc ch : String) (dq : Char)
    (q : ℚ) (ty : Char) (cnt : Int) (ds : List Byte) (t d del : Int)
    (hd : 0 ≤ d) (hh : 0 ≤ hpdeltaOf q)
    (hdel : d + hpdeltaOf q + hptimetolOf (hpdeltaOf q) < del) :
    (readMSEEDBuffer { unpack := u, details := false, bfield := [] }
        [some (c7rec nw stn loc ch dq q ty cnt ds t d),
         some (c7rec nw stn loc ch dq q ty cnt ds (t + del) d),
         some (c7rec nw stn loc ch dq q ty cnt ds (t - del) d)]).map
        (fun b => b.segments.map (fun s => s.starttime)) =
      [[t, t + del, t - del]] := by
  have htol : 0 ≤ hptimetolOf (hpdeltaOf q) := by
    rw [hptimetolOf, cTrunc_half]
    exact Int.tdiv_nonneg hh (by norm_num)
  have hm2 : mergeTest
      (newSegment 0xFF (-1) [] 0 (c7rec nw stn loc ch dq q ty cnt ds t d))
      0xFF (-1) [] (c7rec nw stn loc ch dq q ty cnt ds (t + del) d) = false := by
    have hgap : ¬((c7rec nw stn loc ch dq q ty cnt ds (t + del) d).starttime -
        (newSegment 0xFF (-1) [] 0
          (c7rec nw stn loc ch dq q ty cnt ds t d)).endtime -
        (newSegment 0xFF (-1) [] 0
          (c7rec nw stn loc ch dq q ty cnt ds t d)).hpdelta ≤
        hptimetolOf (newSegment 0xFF (-1) [] 0
          (c7rec nw stn loc ch dq q ty cnt ds t d)).hpdelta) := by
      show ¬(t + del - (t + d) - hpdeltaOf q ≤ hptimetolOf (hpdeltaOf q))
      omega
    have htg : timeGapOK
        (newSegment 0xFF (-1) [] 0 (c7rec nw stn loc ch dq q ty cnt ds t d))
        (c7rec nw stn loc ch dq q ty cnt ds (t + del) d) = false := by
      simp only [timeGapOK]
      rw [decide_eq_false hgap, Bool.false_and]
    simp [mergeTest, htg]
  have hm3 : mergeTest
      (newSegment 0xFF (-1) [] 0
        (c7rec nw stn loc ch dq q ty cnt ds (t + del) d))
      0xFF (-1) [] (c7rec nw stn loc ch dq q ty cnt ds (t - del) d) = false := by
    have hgap : ¬((if hptimetolOf (newSegment 0xFF (-1) [] 0
          (c7rec nw stn loc ch dq q ty cnt ds (t + del) d)).hpdelta ≠ 0 then
            -hptimetolOf (newSegment 0xFF (-1) [] 0
              (c7rec nw stn loc ch dq q ty cnt ds (t + del) d)).hpdelta
          else 0) ≤
        (c7rec nw stn loc ch dq q ty cnt ds (t - del) d).starttime -
        (newSegment 0xFF (-1) [] 0
          (c7rec nw stn loc ch dq q ty cnt ds (t + del) d)).endtime -
        (newSegment 0xFF (-1) [] 0
          (c7rec nw stn loc ch dq q ty cnt ds (t + del) d)).hpdelta) := by
      show ¬((if hptimetolOf (hpdeltaOf q) ≠ 0 then -hptimetolOf (hpdeltaOf q)
          else 0) ≤ t - del - (t + del + d) - hpdeltaOf q)
      by_cases h0 : hptimetolOf (hpdeltaOf q) = 0
      · rw [h0]
        simp only [ne_eq, not_true_eq_false, if_false]
        omega
      · rw [if_pos h0]
        omega
    have htg : timeGapOK
        (newSegment 0xFF (-1) [] 0
          (c7rec nw stn loc ch dq q ty cnt ds (t + del) d))
        (c7rec nw stn loc ch dq q ty cnt ds (t - del) d) = false := by
      simp only [timeGapOK]
      rw [decide_eq_false hgap, Bool.and_false]
    simp [mergeTest, htg]
  have h := three_records_three_segments u
    (c7rec nw stn loc ch dq q ty cnt ds t d)
    (c7rec nw stn loc ch dq q ty cnt ds (t + del) d)
    (c7rec nw stn loc ch dq q ty cnt ds (t - del) d)
    rfl rfl hm2 hm3
  exact h

/-- Witness for `c7_out_of_order`: rate 1 Hz (`hpdelta` 1000000), zero
duration, displacement 2000000 time units. -/
theorem c7_out_of_order_witness :
    (readMSEEDBuffer { unpack := false, details := false, bfield := [] }
        [some (c7rec "XX" "STA" "" "BHZ" 'D' 1 'a' 2 [1, 2] 0 0),
         some (c7rec "XX" "STA" "" "BHZ" 'D' 1 'a' 2 [1, 2] 2000000 0),
         some (c7rec "XX" "STA" "" "BHZ" 'D' 1 'a' 2 [1, 2] (-2000000) 0)]).map
        (fun b => b.segments.map (fun s => s.starttime)) =
      [[0, 2000000, -2000000]] := by
  have hpd : hpdeltaOf 1 = 1000000 := by
    rw [hpdeltaOf, if_pos (by norm_num), HPTMODULUS]
    norm_num [cTrunc]
  have htl : hptimetolOf 1000000 = 500000 := by
    rw [hptimetolOf, cTrunc_half]
    decide
  have h := c7_out_of_order false "XX" "STA" "" "BHZ" 'D' 1 'a' 2 [1, 2]
    0 0 2000000 (by omega) (by rw [hpd]; decide) (by rw [hpd, htl]; omega)
  simpa using h

end ObspyRB
